import Mathlib

/-!
Verification development for the URL-shortener backend
(labs/lab01-vibe-coding-intro/backend/main.py).

The service is embedded shallowly:
* the SQLite `urls` table is a list of rows in insertion (`id`) order;
  `fetchone` on an un-ordered `SELECT` is modelled as the first matching
  row in that order;
* the `UNIQUE` constraint on `short_code` is modelled by `insertRow`,
  which fails exactly when the code is already present;
* `secrets.choice` randomness is modelled by an explicit `pick` oracle,
  and the candidate codes consumed by the allocation loop of
  `shorten_url` by an explicit list `cands`;
* interleaving with concurrent writers is modelled by an interference
  schedule `ds : List Store`: `ds` holds, per attempt of the allocation
  loop, the rows committed by other writers between the duplicate
  pre-check (`SELECT id FROM urls WHERE short_code = ?`) and the
  `INSERT`.  The purely sequential run is `ds = []`;
* `HTTPException`s and the `except aiosqlite.Error` handler are modelled
  with `Except`: any `aiosqlite.Error` escaping the body (including an
  `IntegrityError` raised by the `INSERT` itself) becomes the HTTP 500
  `databaseError` outcome, as in lines 199-203 of the source.
-/

namespace Shortener

/-- A persisted row of the `urls` table.  The surrogate `id` and
`created_at` columns are assigned by the store and never read back by
the endpoints; insertion order of the list plays the role of `id`. -/
structure Row where
  original_url : String
  short_code : String
deriving DecidableEq

/-- The `urls` table, in insertion order. -/
abbrev Store := List Row

/-- The list of stored short codes, in insertion order. -/
def codes (st : Store) : List String :=
  st.map Row.short_code

/-- The alphabet of line 40: `string.ascii_letters + string.digits`. -/
def alphabet : List Char :=
  ("abcdefghijklmnopqrstuvwxyzABCDEFGHIJKLMNOPQRSTUVWXYZ0123456789").data

/-- `generate_short_code` (lines 38-41): six characters, each picked from
the 62-symbol alphabet.  The `secrets.choice` calls are modelled by the
oracle `pick`. -/
def generate_short_code (pick : Fin 6 → Fin 62) : String :=
  String.mk ((List.finRange 6).map fun i =>
    alphabet.get (Fin.cast (by decide) (pick i)))

/-- `SELECT short_code FROM urls WHERE original_url = ?` + `fetchone`
(lines 158-162): first row whose `original_url` equals the query string
exactly. -/
def find_by_url (st : Store) (url : String) : Option String :=
  (st.find? fun r => r.original_url == url).map Row.short_code

/-- `SELECT id FROM urls WHERE short_code = ?` + `fetchone` viewed as a
boolean (lines 174-178): does some row carry this code? -/
def code_exists (st : Store) (c : String) : Bool :=
  st.any fun r => r.short_code == c

/-- `SELECT original_url FROM urls WHERE short_code = ?` + `fetchone`
(lines 223-227). -/
def find_by_code (st : Store) (c : String) : Option String :=
  (st.find? fun r => r.short_code == c).map Row.original_url

/-- `INSERT INTO urls (original_url, short_code) VALUES (?, ?)` against
the table of line 48-54, whose `short_code` column is `UNIQUE`: the
insert is atomic and raises an integrity error exactly when the code is
already present. -/
def insertRow (st : Store) (url c : String) : Except Unit Store :=
  if code_exists st c then .error () else .ok (st ++ [⟨url, c⟩])

/-- The two HTTP-500 outcomes of `shorten_url`: the explicit
`HTTPException` of lines 189-192 after the loop exhausts its attempts,
and the generic `Database error` handler of lines 199-203 that catches
any `aiosqlite.Error`. -/
inductive ShortenErr where
  | exhausted
  | databaseError
deriving DecidableEq

/-- The allocation loop of lines 169-192.  For each candidate code:
re-check existence; if the pre-check finds the code, fall through to the
next attempt; otherwise perform the `INSERT`.  Rows committed by
concurrent writers between the pre-check and the `INSERT` are the head
of the schedule `ds`; an integrity error raised by the `INSERT` is an
`aiosqlite.Error`, so it propagates to the handler of line 199 and
becomes the 500 `databaseError` (there is no retry on insert failure in
the source).  Exhausting the candidates reaches the `for`-`else` of
line 188.  The returned store is the table as left behind. -/
def alloc_loop (url : String) : List String → List Store → Store →
    Except ShortenErr String × Store
  | [], _, st => (.error .exhausted, st)
  | c :: cs, ds, st =>
    if code_exists st c then
      alloc_loop url cs (ds.drop 1) st
    else
      let st2 := st ++ ds.headD []
      match insertRow st2 url c with
      | .error () => (.error .databaseError, st2)
      | .ok st3 => (.ok c, st3)

/-- `POST /shorten` core (lines 153-203), after request validation: the
dedup lookup by exact `original_url`, then (only when no row matches)
the allocation loop.  Returns the short code (from which line 195 builds
`short_url` as `BASE_URL + "/" + code`) together with the resulting
table. -/
def shorten_url (url : String) (cands : List String) (ds : List Store)
    (st : Store) : Except ShortenErr String × Store :=
  match find_by_url st url with
  | some c => (.ok c, st)
  | none => alloc_loop url cands ds st

/-- Outcome of `GET /{short_code}` (lines 205-242): a 307 redirect or a
404 with its detail string. -/
inductive ResolveResult where
  | redirect307 (url : String)
  | notFound404 (detail : String)
deriving DecidableEq

/-- Python `str.isalnum` on a single character, for the ASCII range. -/
def pyIsAlnumChar (c : Char) : Bool :=
  c.isAlpha || c.isDigit

/-- Python `str.isalnum` (line 215): nonempty and all characters
alphanumeric. -/
def pyIsAlnum (s : String) : Bool :=
  !s.data.isEmpty && s.data.all pyIsAlnumChar

/-- An ASCII single quote, as used by the f-string of line 232. -/
def squote : String :=
  (Char.ofNat 39).toString

/-- Detail string of line 218. -/
def invalid_detail : String :=
  "Invalid short code format"

/-- Detail string of line 232. -/
def not_found_detail (c : String) : String :=
  "Short code " ++ squote ++ c ++ squote ++ " not found"

/-- `GET /{short_code}` (lines 205-242): shape check first (404 without
any database access), then the lookup (404 when no row matches, 307
redirect to the stored `original_url` otherwise). -/
def redirect_to_url (st : Store) (short_code : String) : ResolveResult :=
  if short_code.length != 6 || !pyIsAlnum short_code then
    .notFound404 invalid_detail
  else
    match find_by_code st short_code with
    | none => .notFound404 (not_found_detail short_code)
    | some original_url => .redirect307 original_url

/-- `BLOCKED_DOMAINS` (lines 29-35). -/
def BLOCKED_DOMAINS : List String :=
  ["localhost", "127.0.0.1", "0.0.0.0", "[::1]"]

/-- `suspicious_patterns` (lines 115-120); each regex is a literal
string. -/
def suspicious_patterns : List String :=
  ["javascript:", "data:", "vbscript:", "file://"]

/-- Python substring containment (`needle in hay`), over character
lists. -/
def containsSub (needle : List Char) : List Char → Bool
  | [] => needle.isEmpty
  | c :: t => needle.isPrefixOf (c :: t) || containsSub needle t

/-- `re.search(r'://([^/:]+)', url_str)` of line 105: leftmost position
where `://` is followed by at least one character that is neither `/`
nor `:`; the captured group is the maximal such run. -/
def domainSearch : List Char → Option (List Char)
  | [] => none
  | c :: rest =>
    match c, rest with
    | ':', '/' :: '/' :: rest2 =>
      let d := rest2.takeWhile fun ch => !(ch == '/' || ch == ':')
      if d.isEmpty then domainSearch rest else some d
    | _, _ => domainSearch rest

/-- Checks 4 and 5 of `validate_url` (lines 114-130): suspicious
substring in the lowercased URL, then the count of `%`/`@`
characters. -/
def validate_rest (us : List Char) : Except String Unit :=
  let url_lower := us.map Char.toLower
  if suspicious_patterns.any (fun p => containsSub p.data url_lower) then
    .error "URL contains suspicious pattern"
  else if us.countP (fun c => c == '%' || c == '@') > 20 then
    .error "URL contains too many encoded or special characters"
  else
    .ok ()

/-- `validate_url` (lines 90-132) on the URL string: length cap, scheme
allowlist, domain blocklist (substring match against the lowercased
extracted domain, first blocked entry wins), then checks 4 and 5. -/
def validate_url (url_str : String) : Except String Unit :=
  let us := url_str.data
  if us.length > 2048 then
    .error "URL is too long (max 2048 characters)"
  else if !(("http://").data.isPrefixOf us || ("https://").data.isPrefixOf us) then
    .error "Only HTTP and HTTPS protocols are allowed"
  else
    match domainSearch us with
    | some d =>
      let domain := d.map Char.toLower
      match BLOCKED_DOMAINS.find? (fun b => containsSub b.data domain) with
      | some b => .error ("Cannot shorten URLs with domain: " ++ b)
      | none => validate_rest us
    | none => validate_rest us

/-- A short code of the shape the generator produces: exactly six
characters, all from the 62-symbol alphabet. -/
def wellFormedCode (c : String) : Prop :=
  c.length = 6 ∧ ∀ ch ∈ c.data, ch ∈ alphabet

instance (c : String) : Decidable (wellFormedCode c) := by
  unfold wellFormedCode; infer_instance

namespace Facts

theorem mem_codes {st : Store} {c : String} :
    c ∈ codes st ↔ ∃ r ∈ st, r.short_code = c := by
  simp [codes, List.mem_map]

theorem codes_append (st₁ st₂ : Store) :
    codes (st₁ ++ st₂) = codes st₁ ++ codes st₂ :=
  List.map_append _ _ _

theorem code_exists_iff {st : Store} {c : String} :
    code_exists st c = true ↔ c ∈ codes st := by
  simp [code_exists, List.any_eq_true, mem_codes]

theorem code_exists_false_iff {st : Store} {c : String} :
    code_exists st c = false ↔ c ∉ codes st := by
  rw [← Bool.not_eq_true, code_exists_iff]

theorem find_by_url_none_iff {st : Store} {u : String} :
    find_by_url st u = none ↔ ∀ r ∈ st, r.original_url ≠ u := by
  simp [find_by_url, List.find?_eq_none]

theorem find_by_url_some {st : Store} {u c : String}
    (h : find_by_url st u = some c) :
    ∃ r ∈ st, r.original_url = u ∧ r.short_code = c := by
  unfold find_by_url at h
  cases hf : st.find? (fun r => r.original_url == u) with
  | none => rw [hf] at h; simp at h
  | some r =>
    rw [hf] at h
    refine ⟨r, List.mem_of_find?_eq_some hf, ?_, ?_⟩
    · have := List.find?_some hf
      simpa using this
    · simpa using h

theorem find_by_url_append_one {st : Store} {u : String} (r : Row) :
    find_by_url (st ++ [r]) u =
      (find_by_url st u).or
        (if r.original_url == u then some r.short_code else none) := by
  unfold find_by_url
  rw [List.find?_append]
  cases hf : st.find? (fun x => x.original_url == u) with
  | none => simp [List.find?]; split <;> simp_all
  | some x => simp

theorem find_by_code_append_one {st : Store} {c : String} (r : Row) :
    find_by_code (st ++ [r]) c =
      (find_by_code st c).or
        (if r.short_code == c then some r.original_url else none) := by
  unfold find_by_code
  rw [List.find?_append]
  cases hf : st.find? (fun x => x.short_code == c) with
  | none => simp [List.find?]; split <;> simp_all
  | some x => simp

theorem find_by_code_none_iff {st : Store} {c : String} :
    find_by_code st c = none ↔ c ∉ codes st := by
  simp [find_by_code, List.find?_eq_none, mem_codes]

theorem find_by_code_of_nodup {st : Store} {r : Row}
    (hnd : (codes st).Nodup) (hr : r ∈ st) :
    find_by_code st r.short_code = some r.original_url := by
  unfold find_by_code
  cases hf : st.find? (fun x => x.short_code == r.short_code) with
  | none =>
    rw [List.find?_eq_none] at hf
    exact absurd (by simp) (hf r hr)
  | some x =>
    have hx : x ∈ st := List.mem_of_find?_eq_some hf
    have hcode : x.short_code = r.short_code := by
      have := List.find?_some hf
      simpa using this
    have : x = r := List.inj_on_of_nodup_map hnd hx hr hcode
    simp [this]

theorem alloc_loop_all_exist {u : String} (cands : List String) :
    ∀ (ds : List Store) (st : Store),
    (∀ c ∈ cands, code_exists st c = true) →
    alloc_loop u cands ds st = (.error .exhausted, st) := by
  induction cands with
  | nil => intro ds st _; rfl
  | cons c cs ih =>
    intro ds st h
    have hc : code_exists st c = true := h c (by simp)
    simp only [alloc_loop, hc, if_true]
    exact ih _ st fun k hk => h k (by simp [hk])

theorem alloc_loop_ok_seq {u c : String} {st st' : Store} (cands : List String)
    (h : alloc_loop u cands [] st = (.ok c, st')) :
    c ∈ cands ∧ code_exists st c = false ∧ st' = st ++ [⟨u, c⟩] := by
  induction cands with
  | nil => simp [alloc_loop] at h
  | cons c0 cs ih =>
    by_cases hc : code_exists st c0 = true
    · simp only [alloc_loop, hc, if_true, List.drop_nil] at h
      obtain ⟨h1, h2, h3⟩ := ih h
      exact ⟨by simp [h1], h2, h3⟩
    · rw [Bool.not_eq_true] at hc
      simp only [alloc_loop, hc, Bool.false_eq_true, if_false, List.headD_nil,
        insertRow, List.append_nil, Prod.mk.injEq, Except.ok.injEq] at h
      obtain ⟨h1, h2⟩ := h
      subst h1
      exact ⟨by simp, hc, h2.symm⟩

theorem alloc_loop_first_fresh {u c : String} {st : Store} (pre rest : List String)
    (hpre : ∀ k ∈ pre, code_exists st k = true)
    (hc : code_exists st c = false) :
    alloc_loop u (pre ++ c :: rest) [] st = (.ok c, st ++ [⟨u, c⟩]) := by
  induction pre with
  | nil => simp [alloc_loop, hc, insertRow]
  | cons p ps ih =>
    have hp : code_exists st p = true := hpre p (by simp)
    simp only [List.cons_append, alloc_loop, hp, if_true, List.drop_nil]
    exact ih fun k hk => hpre k (by simp [hk])

theorem alloc_loop_race {u c : String} {st d : Store} (rest : List String)
    (ds : List Store)
    (h1 : code_exists st c = false) (h2 : code_exists (st ++ d) c = true) :
    alloc_loop u (c :: rest) (d :: ds) st = (.error .databaseError, st ++ d) := by
  simp [alloc_loop, h1, insertRow, h2]

theorem alloc_loop_nodup {u : String} (cands : List String) :
    ∀ (ds : List Store) (st : Store),
    (∀ k, (codes (st ++ (ds.drop k).headD [])).Nodup) →
    (codes (alloc_loop u cands ds st).2).Nodup := by
  induction cands with
  | nil =>
    intro ds st h
    have h0 := h ds.length
    simp only [List.drop_length, List.headD_nil, List.append_nil] at h0
    simpa [alloc_loop] using h0
  | cons c cs ih =>
    intro ds st h
    by_cases hc : code_exists st c = true
    · simp only [alloc_loop, hc, if_true]
      refine ih _ st fun k => ?_
      have := h (k + 1)
      rwa [show ds.drop (k + 1) = (ds.drop 1).drop k by
        rw [List.drop_drop, Nat.add_comm]] at this
    · rw [Bool.not_eq_true] at hc
      have h0 := h 0
      simp only [List.drop_zero] at h0
      simp only [alloc_loop, hc, Bool.false_eq_true, if_false, insertRow]
      by_cases hex : code_exists (st ++ ds.headD []) c = true
      · simpa only [hex, if_true] using h0
      · rw [Bool.not_eq_true] at hex
        simp only [hex, Bool.false_eq_true, if_false]
        rw [codes_append, List.nodup_append]
        refine ⟨h0, by simp [codes], ?_⟩
        intro x hx hx'
        have hxc : x = c := by simpa [codes] using hx'
        subst hxc
        exact (code_exists_false_iff.mp hex) hx

theorem alphabet_alnum : ∀ ch ∈ alphabet, pyIsAlnumChar ch = true := by decide

theorem wf_shape {c : String} (h : wellFormedCode c) :
    c.length = 6 ∧ pyIsAlnum c = true := by
  obtain ⟨h1, h2⟩ := h
  refine ⟨h1, ?_⟩
  have hne : c.data ≠ [] := by
    intro hnil
    have : c.length = 0 := by
      show c.data.length = 0
      simp [hnil]
    omega
  unfold pyIsAlnum
  rw [Bool.and_eq_true, List.all_eq_true]
  constructor
  · simpa [List.isEmpty_iff] using hne
  · intro ch hch
    exact alphabet_alnum ch (h2 ch hch)

theorem generate_wf (pick : Fin 6 → Fin 62) :
    wellFormedCode (generate_short_code pick) := by
  constructor
  · show ((List.finRange 6).map _).length = 6
    rw [List.length_map, List.length_finRange]
  · intro ch hch
    have : ch ∈ (List.finRange 6).map fun i =>
        alphabet.get (Fin.cast (by decide) (pick i)) := hch
    rw [List.mem_map] at this
    obtain ⟨i, _, hi⟩ := this
    rw [← hi]
    exact List.get_mem alphabet _ _

theorem containsSub_iff {p hay : List Char} :
    containsSub p hay = true ↔ p <:+: hay := by
  induction hay with
  | nil =>
    simp [containsSub, List.isEmpty_iff, List.infix_nil]
  | cons c t ih =>
    simp only [containsSub, Bool.or_eq_true, ih, List.isPrefixOf_iff_prefix]
    rw [List.infix_cons_iff]

theorem not_contains_of_witness {p hay : List Char} (ch : Char)
    (hp : ch ∈ p) (hh : ch ∉ hay) : containsSub p hay = false := by
  rw [Bool.eq_false_iff]
  intro h
  exact hh ((containsSub_iff.mp h).subset hp)

theorem validate_rest_ne_tooLong (us : List Char) :
    validate_rest us ≠ .error "URL is too long (max 2048 characters)" := by
  by_cases h1 : (suspicious_patterns.any fun p =>
      containsSub p.data (us.map Char.toLower)) = true
  · simp only [validate_rest, h1, if_true, ne_eq, Except.error.injEq]
    decide
  · rw [Bool.not_eq_true] at h1
    by_cases h2 : us.countP (fun c => c == '%' || c == '@') > 20
    · simp only [validate_rest, h1, Bool.false_eq_true, if_false, if_pos h2,
        ne_eq, Except.error.injEq]
      decide
    · simp only [validate_rest, h1, Bool.false_eq_true, if_false, if_neg h2]
      simp

theorem validate_rest_u2048 :
    validate_rest (("http://example.com/").data ++ List.replicate 2029 'a')
      = .ok () := by
  have hsusp : suspicious_patterns.any (fun p => containsSub p.data
      ((("http://example.com/").data ++
        List.replicate 2029 'a').map Char.toLower)) = false := by
    rw [List.any_eq_false]
    intro p hp
    rw [Bool.not_eq_true, List.map_append, List.map_replicate]
    simp only [suspicious_patterns] at hp
    fin_cases hp
    · refine not_contains_of_witness 'j' (by decide) ?_
      intro hmem
      rcases List.mem_append.mp hmem with h | h
      · revert h; decide
      · have h2 := List.eq_of_mem_replicate h; revert h2; decide
    · refine not_contains_of_witness 'd' (by decide) ?_
      intro hmem
      rcases List.mem_append.mp hmem with h | h
      · revert h; decide
      · have h2 := List.eq_of_mem_replicate h; revert h2; decide
    · refine not_contains_of_witness 'v' (by decide) ?_
      intro hmem
      rcases List.mem_append.mp hmem with h | h
      · revert h; decide
      · have h2 := List.eq_of_mem_replicate h; revert h2; decide
    · refine not_contains_of_witness 'f' (by decide) ?_
      intro hmem
      rcases List.mem_append.mp hmem with h | h
      · revert h; decide
      · have h2 := List.eq_of_mem_replicate h; revert h2; decide
  have hcount : (("http://example.com/").data ++
      List.replicate 2029 'a').countP (fun c => c == '%' || c == '@') = 0 := by
    rw [List.countP_append, List.countP_replicate]
    decide
  simp only [validate_rest]
  rw [hsusp]
  rw [if_neg (by simp)]
  rw [hcount]
  rw [if_neg (by omega)]

theorem validate_url_after_checks {url_str : String} {d : List Char}
    (hlen : ¬ url_str.data.length > 2048)
    (hpre : ("http://").data.isPrefixOf url_str.data = true ∨
      ("https://").data.isPrefixOf url_str.data = true)
    (hdom : domainSearch url_str.data = some d)
    (hblock : BLOCKED_DOMAINS.find?
      (fun b => containsSub b.data (d.map Char.toLower)) = none) :
    validate_url url_str = validate_rest url_str.data := by
  simp only [validate_url]
  rw [if_neg hlen]
  rw [if_neg (by rcases hpre with h | h <;> simp [h])]
  rw [hdom]
  simp only [hblock]

theorem shorten_ok_cases {u c : String} {st st' : Store} {cands : List String}
    (h : shorten_url u cands [] st = (.ok c, st')) :
    (st' = st ∧ find_by_url st u = some c) ∨
    (find_by_url st u = none ∧ c ∈ cands ∧ code_exists st c = false ∧
      st' = st ++ [⟨u, c⟩]) := by
  unfold shorten_url at h
  cases hfind : find_by_url st u with
  | some c0 =>
    rw [hfind] at h
    simp only [Prod.mk.injEq, Except.ok.injEq] at h
    obtain ⟨h1, h2⟩ := h
    subst h1
    exact Or.inl ⟨h2.symm, rfl⟩
  | none =>
    rw [hfind] at h
    obtain ⟨h1, h2, h3⟩ := alloc_loop_ok_seq cands h
    exact Or.inr ⟨rfl, h1, h2, h3⟩

end Facts

open Facts

/-- C1.  The claim says that when an insert attempt fails because the
candidate code already exists (a uniqueness-constraint violation), the
service distinguishes this from other storage failures and retries with
a fresh candidate.  The source does not: the only retry is driven by the
pre-insert existence check, and an integrity error raised by the
`INSERT` itself is caught by the blanket `except aiosqlite.Error`
handler of line 199 and surfaced as a 500 database error.  Concrete
refutation: the store is empty at the pre-check, a concurrent writer
commits the candidate code `"aaaaaa"` before the `INSERT`, and although
the fresh candidate `"bbbbbb"` is still available the request fails
with the 500 database error instead of retrying. -/
theorem C1_counterexample :
    code_exists [] "aaaaaa" = false ∧
    code_exists [⟨"https://other.example/", "aaaaaa"⟩] "aaaaaa" = true ∧
    shorten_url "https://example.com/page" ["aaaaaa", "bbbbbb"]
        [[⟨"https://other.example/", "aaaaaa"⟩]] [] =
      (.error .databaseError, [⟨"https://other.example/", "aaaaaa"⟩]) :=
  ⟨rfl, rfl, rfl⟩

/-- C1 (amended).  In the allocation loop of `shorten_url`, a candidate
code that the pre-insert existence check finds in the store is discarded
and the next freshly generated candidate is tried (up to the 10
attempts); but an insert attempt that itself fails with a
uniqueness-constraint violation (possible only when a concurrent writer
claims the code between the pre-check and the `INSERT`) is not
distinguished from other storage failures: it is surfaced as a fatal
500 database error rather than retried. -/
theorem C1_collision_handling :
    (∀ (u c : String) (st : Store) (pre rest : List String),
        find_by_url st u = none →
        (∀ k ∈ pre, code_exists st k = true) →
        code_exists st c = false →
        shorten_url u (pre ++ c :: rest) [] st = (.ok c, st ++ [⟨u, c⟩])) ∧
    (∀ (u c : String) (st d : Store) (rest : List String) (ds : List Store),
        find_by_url st u = none →
        code_exists st c = false →
        code_exists (st ++ d) c = true →
        shorten_url u (c :: rest) (d :: ds) st =
          (.error .databaseError, st ++ d)) := by
  constructor
  · intro u c st pre rest hf hpre hc
    unfold shorten_url
    rw [hf]
    exact alloc_loop_first_fresh pre rest hpre hc
  · intro u c st d rest ds hf hc hd
    unfold shorten_url
    rw [hf]
    exact alloc_loop_race rest ds hc hd

theorem C1_witness :
    shorten_url "https://example.com/page" (["aaaaaa"] ++ "bbbbbb" :: [])
        [] [⟨"https://other.example/", "aaaaaa"⟩] =
      (.ok "bbbbbb", [⟨"https://other.example/", "aaaaaa"⟩] ++
        [⟨"https://example.com/page", "bbbbbb"⟩]) ∧
    shorten_url "https://example.com/page" ("cccccc" :: [])
        ([⟨"https://other.example/", "cccccc"⟩] :: []) [] =
      (.error .databaseError, [] ++ [⟨"https://other.example/", "cccccc"⟩]) :=
  ⟨C1_collision_handling.1 "https://example.com/page" "bbbbbb"
      [⟨"https://other.example/", "aaaaaa"⟩] ["aaaaaa"] []
      (by decide) (by decide) (by decide),
    C1_collision_handling.2 "https://example.com/page" "cccccc" []
      [⟨"https://other.example/", "cccccc"⟩] [] []
      (by decide) (by decide) (by decide)⟩

/-- C2.  Uniqueness of `short_code` across the store: (1) the store's
uniqueness constraint is the anchor — an `INSERT` succeeds only when the
code is absent, and then appends exactly one row; (2) `shorten_url`
preserves distinctness of all stored codes, for every interference
schedule whose intermediate states themselves satisfy the constraint
(`resolve` never writes, so it preserves the invariant trivially); (3)
consequently two rows carrying the same `short_code` are the same row,
so no two distinct `original_url` values ever share a code. -/
theorem C2_uniqueness_invariant :
    (∀ (st : Store) (u c : String) (st2 : Store),
        insertRow st u c = .ok st2 → c ∉ codes st ∧ st2 = st ++ [⟨u, c⟩]) ∧
    (∀ (u : String) (cands : List String) (ds : List Store) (st : Store),
        (∀ k, (codes (st ++ (ds.drop k).headD [])).Nodup) →
        (codes (shorten_url u cands ds st).2).Nodup) ∧
    (∀ st : Store, (codes st).Nodup →
        ∀ r₁ ∈ st, ∀ r₂ ∈ st, r₁.short_code = r₂.short_code →
          r₁.original_url = r₂.original_url) := by
  refine ⟨?_, ?_, ?_⟩
  · intro st u c st2 h
    unfold insertRow at h
    by_cases hex : code_exists st c = true
    · rw [if_pos hex] at h
      cases h
    · rw [Bool.not_eq_true] at hex
      rw [if_neg (by simp [hex])] at h
      refine ⟨code_exists_false_iff.mp hex, ?_⟩
      simpa using h.symm
  · intro u cands ds st h
    unfold shorten_url
    cases hfind : find_by_url st u with
    | some c =>
      have h0 := h ds.length
      simpa [List.drop_length] using h0
    | none => exact alloc_loop_nodup cands ds st h
  · intro st hnd r₁ h₁ r₂ h₂ hcode
    have : r₁ = r₂ := List.inj_on_of_nodup_map hnd h₁ h₂ hcode
    rw [this]

theorem C2_witness :
    (("zzzzzz" ∉ codes []) ∧
      ([⟨"https://example.com/a", "zzzzzz"⟩] : Store) =
        [] ++ [⟨"https://example.com/a", "zzzzzz"⟩]) ∧
    (codes (shorten_url "https://example.com/a" ["zzzzzz"] [] []).2).Nodup :=
  ⟨C2_uniqueness_invariant.1 [] "https://example.com/a" "zzzzzz"
      [⟨"https://example.com/a", "zzzzzz"⟩] rfl,
    C2_uniqueness_invariant.2.1 "https://example.com/a" ["zzzzzz"] [] []
      (by intro k; simp [codes])⟩

/-- C3.  Idempotent shorten: if a sequential `shorten_url` of `u`
succeeds with code `c` and store `st'`, then a second `shorten_url` of
`u` (with any candidate list and any interference schedule) finds the
existing row by `original_url` and returns the same `c` without
inserting anything: the store is unchanged. -/
theorem C3_idempotent_shorten {u c : String} {st st' : Store}
    (cands cands2 : List String) (ds2 : List Store)
    (h : shorten_url u cands [] st = (.ok c, st')) :
    shorten_url u cands2 ds2 st' = (.ok c, st') := by
  rcases shorten_ok_cases h with ⟨hst, hfind⟩ | ⟨hfind, _, _, hst⟩
  · subst hst
    unfold shorten_url
    rw [hfind]
  · subst hst
    unfold shorten_url
    rw [find_by_url_append_one, hfind]
    simp

theorem C3_witness :
    shorten_url "https://example.com/a" ["other0"] []
        [⟨"https://example.com/a", "abc123"⟩]
      = (.ok "abc123", [⟨"https://example.com/a", "abc123"⟩]) :=
  C3_idempotent_shorten ["abc123"] ["other0"] []
    (show shorten_url "https://example.com/a" ["abc123"] [] []
        = (.ok "abc123", [⟨"https://example.com/a", "abc123"⟩]) from rfl)

/-- C9.  When the URL is new and all 10 candidate codes collide with
codes already in the store (the pre-check finds every one of them),
`shorten_url` surfaces the allocation-exhaustion 500 of lines 189-192
and the store is returned exactly as it was: no row was inserted by the
failed request. -/
theorem C9_allocation_exhausted {u : String} {st : Store}
    (cands : List String) (ds : List Store)
    (hfresh : find_by_url st u = none)
    (_hlen : cands.length = 10)
    (hcoll : ∀ c ∈ cands, code_exists st c = true) :
    shorten_url u cands ds st = (.error .exhausted, st) := by
  unfold shorten_url
  rw [hfresh]
  exact alloc_loop_all_exist cands ds st hcoll

/-- C4.  Round trip: a successful sequential `shorten_url` of `u`
returning code `c` is immediately resolvable — `redirect_to_url` on the
resulting store answers a 307 redirect to the unchanged original `u`.
The hypotheses record the system invariants under which the endpoints
run: stored codes are pairwise distinct (the store's uniqueness
constraint) and every stored or candidate code has the generator's
6-character alphanumeric shape. -/
theorem C4_round_trip {u c : String} {st st' : Store} (cands : List String)
    (hnd : (codes st).Nodup)
    (hwst : ∀ r ∈ st, wellFormedCode r.short_code)
    (hwc : ∀ k ∈ cands, wellFormedCode k)
    (h : shorten_url u cands [] st = (.ok c, st')) :
    redirect_to_url st' c = .redirect307 u := by
  rcases shorten_ok_cases h with ⟨hst, hfind⟩ | ⟨hfind, hc, hex, hst⟩
  · subst hst
    obtain ⟨r, hr, hru, hrc⟩ := find_by_url_some hfind
    obtain ⟨h6, hal⟩ := wf_shape (hrc ▸ hwst r hr)
    unfold redirect_to_url
    rw [if_neg (by simp [h6, hal])]
    have := find_by_code_of_nodup hnd hr
    rw [hrc, hru] at this
    rw [this]
  · subst hst
    obtain ⟨h6, hal⟩ := wf_shape (hwc c hc)
    unfold redirect_to_url
    rw [if_neg (by simp [h6, hal])]
    rw [find_by_code_append_one,
      find_by_code_none_iff.mpr (code_exists_false_iff.mp hex)]
    simp

theorem C4_witness :
    (codes ([] : Store)).Nodup ∧
    redirect_to_url [⟨"https://example.com/a", "abc123"⟩] "abc123" =
      .redirect307 "https://example.com/a" :=
  ⟨by decide,
    C4_round_trip ["abc123"] (by decide) (by decide) (by decide)
      (show shorten_url "https://example.com/a" ["abc123"] [] []
          = (.ok "abc123", [⟨"https://example.com/a", "abc123"⟩]) from rfl)⟩

/-- C5.  Every code the generator produces is exactly 6 characters from
the 62-symbol alphanumeric alphabet, whatever the random picks; and a
sequential `shorten_url` whose candidate codes come from the generator
and whose store only holds such codes returns a conforming code and
leaves only conforming codes in the store. -/
theorem C5_code_shape :
    (∀ pick : Fin 6 → Fin 62, wellFormedCode (generate_short_code pick)) ∧
    (∀ (u : String) (cands : List String) (st : Store) (c : String)
        (st' : Store),
        (∀ k ∈ cands, wellFormedCode k) →
        (∀ r ∈ st, wellFormedCode r.short_code) →
        shorten_url u cands [] st = (.ok c, st') →
        wellFormedCode c ∧ ∀ r ∈ st', wellFormedCode r.short_code) := by
  refine ⟨generate_wf, ?_⟩
  intro u cands st c st' hcands hst h
  rcases shorten_ok_cases h with ⟨hst', hfind⟩ | ⟨_, hc, _, hst'⟩
  · subst hst'
    obtain ⟨r, hr, _, hrc⟩ := find_by_url_some hfind
    exact ⟨hrc ▸ hst r hr, hst⟩
  · subst hst'
    refine ⟨hcands c hc, ?_⟩
    intro r hr
    rcases List.mem_append.mp hr with h1 | h1
    · exact hst r h1
    · have : r = ⟨u, c⟩ := by simpa using h1
      rw [this]
      exact hcands c hc

theorem C5_witness :
    wellFormedCode (generate_short_code fun _ => ⟨0, by omega⟩) ∧
    (wellFormedCode "abc123" ∧
      ∀ r ∈ ([⟨"https://example.com/a", "abc123"⟩] : Store),
        wellFormedCode r.short_code) :=
  ⟨C5_code_shape.1 (fun _ => ⟨0, by omega⟩),
    C5_code_shape.2 "https://example.com/a" ["abc123"] [] "abc123"
      [⟨"https://example.com/a", "abc123"⟩]
      (by decide) (by decide) rfl⟩

/-- C6.  The dedup lookup compares URL strings exactly, with no
normalization: whenever `u₁` and `u₂` are distinct strings (for
instance differing only in a trailing slash, query order, or casing),
shortening `u₁` and then `u₂` sequentially yields distinct codes — the
second request never reuses the first request's row. -/
theorem C6_exact_dedup {u₁ u₂ c₁ c₂ : String} {st st₁ st₂ : Store}
    (cands₁ cands₂ : List String)
    (hne : u₁ ≠ u₂)
    (hu₂ : find_by_url st u₂ = none)
    (h₁ : shorten_url u₁ cands₁ [] st = (.ok c₁, st₁))
    (h₂ : shorten_url u₂ cands₂ [] st₁ = (.ok c₂, st₂)) :
    c₂ ≠ c₁ := by
  have key : c₁ ∈ codes st₁ ∧ find_by_url st₁ u₂ = none := by
    rcases shorten_ok_cases h₁ with ⟨hst, hfind⟩ | ⟨_, _, _, hst⟩
    · subst hst
      obtain ⟨r, hr, _, hrc⟩ := find_by_url_some hfind
      exact ⟨mem_codes.mpr ⟨r, hr, hrc⟩, hu₂⟩
    · subst hst
      constructor
      · simp [codes]
      · rw [find_by_url_append_one, hu₂]
        simp [hne]
  obtain ⟨hc₁, hf₂⟩ := key
  rcases shorten_ok_cases h₂ with ⟨_, hfind₂⟩ | ⟨_, _, hex, _⟩
  · rw [hf₂] at hfind₂
    cases hfind₂
  · intro heq
    exact code_exists_false_iff.mp hex (heq ▸ hc₁)

theorem C6_witness :
    "https://example.com/a" ≠ "https://example.com/a/" ∧
    ("def456" : String) ≠ "abc123" :=
  ⟨by decide,
    C6_exact_dedup ["abc123"] ["def456"] (by decide) (by decide)
      (show shorten_url "https://example.com/a" ["abc123"] [] []
          = (.ok "abc123", [⟨"https://example.com/a", "abc123"⟩]) from rfl)
      (show shorten_url "https://example.com/a/" ["def456"] []
            [⟨"https://example.com/a", "abc123"⟩]
          = (.ok "def456", [⟨"https://example.com/a", "abc123"⟩,
              ⟨"https://example.com/a/", "def456"⟩]) from rfl)⟩

/-- C8.  `redirect_to_url` never crashes and never answers 500 for a
missing code: a malformed code (not exactly 6 alphanumeric characters)
is answered 404 with the format detail for every store — the result
does not depend on the store, which is the shape check of line 215
firing before any database access; a well-formed code with no matching
row is answered 404 with the not-found detail. -/
theorem C8_resolve_not_found :
    (∀ c : String, ¬(c.length = 6 ∧ pyIsAlnum c = true) →
        ∀ st : Store, redirect_to_url st c = .notFound404 invalid_detail) ∧
    (∀ (c : String) (st : Store), c.length = 6 → pyIsAlnum c = true →
        c ∉ codes st →
        redirect_to_url st c = .notFound404 (not_found_detail c)) := by
  constructor
  · intro c hmal st
    unfold redirect_to_url
    rw [if_pos]
    rw [Bool.or_eq_true, bne_iff_ne, Bool.not_eq_true']
    rcases not_and_or.mp hmal with h | h
    · exact Or.inl h
    · rw [Bool.not_eq_true] at h
      exact Or.inr h
  · intro c st h6 hal hnc
    unfold redirect_to_url
    rw [if_neg (by simp [h6, hal]),
      find_by_code_none_iff.mpr hnc]

theorem C8_witness :
    (redirect_to_url [⟨"https://example.com/a", "zz-zz1"⟩] "zz-zz1" =
        .notFound404 invalid_detail) ∧
    (redirect_to_url [⟨"https://example.com/a", "abc123"⟩] "zzzzzz" =
        .notFound404 (not_found_detail "zzzzzz")) :=
  ⟨C8_resolve_not_found.1 "zz-zz1" (by decide)
      [⟨"https://example.com/a", "zz-zz1"⟩],
    C8_resolve_not_found.2 "zzzzzz" [⟨"https://example.com/a", "abc123"⟩]
      (by decide) (by decide) (by decide)⟩

theorem C9_witness :
    shorten_url "https://example.com/new" (List.replicate 10 "aaaaaa") []
        [⟨"https://other.example/", "aaaaaa"⟩] =
      (.error .exhausted, [⟨"https://other.example/", "aaaaaa"⟩]) :=
  C9_allocation_exhausted (List.replicate 10 "aaaaaa") []
    (by decide) (by decide) (by decide)

/-- C10.  The domain blocklist check of lines 104-112 is a substring
test, not an equality test: whenever the domain extracted by the regex
contains `"localhost"` anywhere inside it (after lowercasing), a URL
that passes the length and scheme checks is rejected with the blocklist
validation error — in particular the host `notlocalhost.example.com`,
which merely contains the blocked entry, is rejected. -/
theorem C10_blocklist_substring :
    (∀ (url : String) (d : List Char),
        url.data.length ≤ 2048 →
        ("http://").data.isPrefixOf url.data = true ∨
          ("https://").data.isPrefixOf url.data = true →
        domainSearch url.data = some d →
        containsSub ("localhost").data (d.map Char.toLower) = true →
        validate_url url = .error "Cannot shorten URLs with domain: localhost") ∧
    validate_url "https://notlocalhost.example.com/" =
      .error "Cannot shorten URLs with domain: localhost" := by
  constructor
  · intro url d hlen hscheme hdom hsub
    simp only [validate_url]
    rw [if_neg (by omega)]
    rw [if_neg (by rcases hscheme with h | h <;> simp [h])]
    rw [hdom]
    have hfind : BLOCKED_DOMAINS.find?
        (fun b => containsSub b.data (d.map Char.toLower)) = some "localhost" := by
      simp only [BLOCKED_DOMAINS]
      rw [List.find?_cons_of_pos _ (by simpa using hsub)]
    simp only [hfind]
    rfl
  · rfl

theorem C10_witness :
    validate_url "https://notlocalhost.example.com/" =
      .error "Cannot shorten URLs with domain: localhost" :=
  C10_blocklist_substring.1 "https://notlocalhost.example.com/"
    ("notlocalhost.example.com").data
    (by decide) (Or.inr (by decide)) rfl (by decide)

/-- C7.  The 2048-character boundary of the length check (line 97,
`len(url_str) > 2048`): every URL string of exactly 2049 characters is
rejected with the length validation error, every URL string of exactly
2048 characters passes the length validation (whatever later checks
decide, the result is never the length error), and a concrete otherwise
well-formed 2048-character URL is fully accepted. -/
theorem C7_length_boundary :
    (∀ u : String, u.length = 2049 →
        validate_url u = .error "URL is too long (max 2048 characters)") ∧
    (∀ u : String, u.length = 2048 →
        validate_url u ≠ .error "URL is too long (max 2048 characters)") ∧
    validate_url (String.mk (("http://example.com/").data ++
        List.replicate 2029 'a')) = .ok () := by
  refine ⟨?_, ?_, ?_⟩
  · intro u hu
    have hd : u.data.length = 2049 := hu
    simp only [validate_url]
    rw [if_pos (by omega)]
  · intro u hu
    have hd : u.data.length = 2048 := hu
    simp only [validate_url]
    rw [if_neg (by omega)]
    split
    · simp only [ne_eq, Except.error.injEq]
      decide
    · split
      · split
        · next b hb =>
          have hmem := List.mem_of_find?_eq_some hb
          simp only [BLOCKED_DOMAINS] at hmem
          fin_cases hmem <;>
            simp only [ne_eq, Except.error.injEq] <;> decide
        · exact Facts.validate_rest_ne_tooLong _
      · exact Facts.validate_rest_ne_tooLong _
  · have hlen : (String.mk (("http://example.com/").data ++
        List.replicate 2029 'a')).data.length = 2048 := by
      show (("http://example.com/").data ++
        List.replicate 2029 'a').length = 2048
      rw [List.length_append, List.length_replicate]
      rw [show ("http://example.com/").data.length = 19 from by decide]
    rw [Facts.validate_url_after_checks (d := ("example.com").data)
      (by rw [hlen]; decide) (Or.inl (by rfl)) (by rfl) (by decide)]
    exact Facts.validate_rest_u2048

theorem C7_witness :
    validate_url (String.mk (List.replicate 2049 'a')) =
      .error "URL is too long (max 2048 characters)" ∧
    validate_url (String.mk (List.replicate 2047 'a' ++ ['b'])) ≠
      .error "URL is too long (max 2048 characters)" :=
  ⟨C7_length_boundary.1 (String.mk (List.replicate 2049 'a'))
      (by show (List.replicate 2049 'a').length = 2049
          rw [List.length_replicate]),
    C7_length_boundary.2.1 (String.mk (List.replicate 2047 'a' ++ ['b']))
      (by show (List.replicate 2047 'a' ++ ['b']).length = 2048
          rw [List.length_append, List.length_replicate]
          decide)⟩

end Shortener
